import Mathlib

/-!
Verification development for the rainflow cycle-counting package `rfcnt`
(repository a-ma72/rainflow, Python distribution).

The repository ships two Python wrapper trees (`python/` and `src/python/`):
enumerations, the `rfc` wrapper with its default-argument resolution, the
`dh` zero-padding, the `asarray_chkfinite` input check, and the plotting
helper `rpplot_prepare` are translated here directly from those sources.
The compiled C extension `rfcnt` (the counting core itself) is not part of
the Python sources; the parts of it that the properties below need — the
hysteresis filter, the four-point cycle detector, residual finalization,
damage accumulation and damage spreading — are modelled from the
specification, as marked on each definition.  Real (f64) sample values are
embedded as rationals.
-/

namespace Rfcnt

/-- Residual-handling policies, from `class ResidualMethod(Enum)` in
`python/__init__.py`.  The Python names `_IGNORE` and `_NO_FINALIZE` begin
with an underscore; the underscore is dropped here. -/
inductive ResidualMethod
  | NONE
  | IGNORE
  | NO_FINALIZE
  | DISCARD
  | HALFCYCLES
  | FULLCYCLES
  | CLORMANN_SEEGER
  | REPEATED
  | DIN45667
deriving Repr, DecidableEq

/-- The stable integer value of each `ResidualMethod` member. -/
def ResidualMethod.value : ResidualMethod → ℤ
  | .NONE => 0
  | .IGNORE => 1
  | .NO_FINALIZE => 2
  | .DISCARD => 3
  | .HALFCYCLES => 4
  | .FULLCYCLES => 5
  | .CLORMANN_SEEGER => 6
  | .REPEATED => 7
  | .DIN45667 => 8

/-- Damage-spreading policies, from `class SDMethod(Enum)` in
`python/__init__.py`. -/
inductive SDMethod
  | NONE
  | HALF_23
  | RAMP_AMPLITUDE_23
  | RAMP_DAMAGE_23
  | RAMP_AMPLITUDE_24
  | RAMP_DAMAGE_24
  | FULL_P2
  | FULL_P3
  | TRANSIENT_23
  | TRANSIENT_23c
deriving Repr, DecidableEq

/-- The stable integer value of each `SDMethod` member. -/
def SDMethod.value : SDMethod → ℤ
  | .NONE => -1
  | .HALF_23 => 0
  | .RAMP_AMPLITUDE_23 => 1
  | .RAMP_DAMAGE_23 => 2
  | .RAMP_AMPLITUDE_24 => 3
  | .RAMP_DAMAGE_24 => 4
  | .FULL_P2 => 5
  | .FULL_P3 => 6
  | .TRANSIENT_23 => 7
  | .TRANSIENT_23c => 8

/-- Level-crossing slope policies, from `class LCMethod(Enum)` in
`python/__init__.py`. -/
inductive LCMethod
  | SLOPES_UP
  | SLOPES_DOWN
  | SLOPES_ALL
deriving Repr, DecidableEq

/-- The stable integer value of each `LCMethod` member (note `SLOPES_ALL = 3`). -/
def LCMethod.value : LCMethod → ℤ
  | .SLOPES_UP => 0
  | .SLOPES_DOWN => 1
  | .SLOPES_ALL => 3

/-- A turning point: signal value, original sample index, class index. -/
structure TP where
  value : ℚ
  idx : ℕ
  cls : ℕ
deriving Repr, DecidableEq

/-- A cycle event: the two inner turning points of a closed (or residual)
cycle and the count it contributes (`1` for closed cycles, `1/2` for
half-cycles). -/
structure CycleEvent where
  fromTp : TP
  toTp : TP
  cnt : ℚ
deriving Repr, DecidableEq

/-- Modelled from the spec: the four-point close-cycle test (§4.4) of the
core, which is not among the Python sources.  With `r23 = |P2 − P3|`,
`r12 = |P1 − P2|`, `r34 = |P3 − P4|`, the inner pair closes exactly when
`r23 ≤ r12` and `r23 ≤ r34`, both comparisons non-strict. -/
def closeQ (p1 p2 p3 p4 : TP) : Bool :=
  decide (|p2.value - p3.value| ≤ |p1.value - p2.value|) &&
    decide (|p2.value - p3.value| ≤ |p3.value - p4.value|)

/-- The detector loop with explicit fuel; each iteration removes two stack
entries, so `s.length` fuel always suffices (see `detectGo_eq_of_le`). -/
def detectGo : ℕ → List TP → List TP × List CycleEvent
  | fuel + 1, p4 :: p3 :: p2 :: p1 :: rest =>
    if closeQ p1 p2 p3 p4 then
      let r := detectGo fuel (p4 :: p1 :: rest)
      (r.1, ⟨p2, p3, 1⟩ :: r.2)
    else
      (p4 :: p3 :: p2 :: p1 :: rest, [])
  | _, s => (s, [])

/-- Modelled from the spec: the cycle detector loop (§4.4) of the core,
which is not among the Python sources.  The residue stack is held
newest-first, so its head is `P4` and the fourth entry is `P1`.  While at
least four entries are present and the four-point test holds, one
`CycleEvent (P2 → P3)` with count `1` is emitted, the inner two entries are
removed (`P1` and `P4` are preserved) and the rule is re-checked; otherwise
detection stops. -/
def detect (s : List TP) : List TP × List CycleEvent :=
  detectGo s.length s

/-- Modelled from the spec: push each turning point onto the residue stack
and run the detector after every push (§4.3–§4.4); returns the final
residue (newest-first) and the closed-cycle events in emission order. -/
def feedTPs (tps : List TP) : List TP × List CycleEvent :=
  tps.foldl (fun acc tp =>
    let r := detect (tp :: acc.1)
    (r.1, acc.2 ++ r.2)) ([], [])

/-- Slope direction of the hysteresis filter (§4.2). -/
inductive Dir
  | unknown
  | up
  | down
deriving Repr, DecidableEq

/-- State of the hysteresis filter: current direction, tentative extremum
(value and sample index) and the turning points emitted so far. -/
structure FilterState where
  dir : Dir
  refVal : ℚ
  refIdx : ℕ
  out : List (ℚ × ℕ)
deriving Repr, DecidableEq

/-- Modelled from the spec: one step of the hysteresis filter / turning
point extractor (§4.2) of the core, which is not among the Python sources.
The hysteresis test is strict (`> H`). -/
def filterStep (H : ℚ) (st : FilterState) (x : ℚ) (i : ℕ) : FilterState :=
  match st.dir with
  | .unknown =>
    if H < |x - st.refVal| then
      { dir := if st.refVal < x then .up else .down, refVal := x, refIdx := i,
        out := st.out ++ [(st.refVal, st.refIdx)] }
    else st
  | .up =>
    if st.refVal < x then { st with refVal := x, refIdx := i }
    else if x < st.refVal - H then
      { dir := .down, refVal := x, refIdx := i, out := st.out ++ [(st.refVal, st.refIdx)] }
    else st
  | .down =>
    if x < st.refVal then { st with refVal := x, refIdx := i }
    else if st.refVal + H < x then
      { dir := .up, refVal := x, refIdx := i, out := st.out ++ [(st.refVal, st.refIdx)] }
    else st

/-- Modelled from the spec: the turning-point stream of an input series
(§4.2).  The first sample initializes the tentative extremum; at
end-of-stream `enforce_margin` additionally emits the final tentative
extremum. -/
def turningPoints (H : ℚ) (enforceMargin : Bool) (data : List ℚ) : List (ℚ × ℕ) :=
  match data with
  | [] => []
  | x :: xs =>
    let st := (List.enumFrom 1 xs).foldl (fun st p => filterStep H st p.2 p.1)
      { dir := .unknown, refVal := x, refIdx := 0, out := [] }
    if enforceMargin then st.out ++ [(st.refVal, st.refIdx)] else st.out

/-- Modelled from the spec: the classifier (§3),
`clip(floor((v − O)/W), 0, N − 1)`. -/
def classOf (n : ℕ) (o w v : ℚ) : ℕ :=
  (min (max ⌊(v - o) / w⌋ 0) ((n : ℤ) - 1)).toNat

/-- Wöhler (S-N) curve parameters, the `wl` dict of the wrapper. -/
structure WL where
  sd : ℚ
  nd : ℚ
  k : ℚ
  k2 : ℚ
deriving Repr, DecidableEq

/-- The resolved configuration handed to the core (the keyword arguments of
`rfcnt.rfc` in `python/__init__.py`, lines 115–128). -/
structure CoreCfg where
  class_count : ℕ
  class_offset : ℚ
  class_width : ℚ
  hysteresis : ℚ
  residual_method : ResidualMethod
  spread_damage : SDMethod
  lc_method : LCMethod
  use_HCM : Bool
  use_ASTM : Bool
  enforce_margin : Bool
  auto_resize : Bool
  wl : WL
deriving Repr, DecidableEq

/-- Modelled from the spec: damage of one cycle event by Miner's rule
(§4.6), `count / N(2·Sa)` with `Sa = W·|class(P2) − class(P3)|/2`.  The S-N
curve evaluation `S ↦ 1/N(2·S)` involves real powers with f64 exponents and
is abstracted as the parameter `dmgFn`; every property proved below holds
for each choice of `dmgFn`. -/
def eventDamage (dmgFn : ℚ → ℚ) (cfg : CoreCfg) (e : CycleEvent) : ℚ :=
  e.cnt * dmgFn (cfg.class_width * |(e.fromTp.cls : ℚ) - (e.toTp.cls : ℚ)| / 2)

/-- Adjacent pairs of a list, `(P_i, P_{i+1})` for each `i`. -/
def adjacentPairs : List TP → List (TP × TP)
  | a :: b :: rest => (a, b) :: adjacentPairs (b :: rest)
  | _ => []

/-- Modelled from the spec: residual finalization (§4.5) of the core, which
is not among the Python sources.  The residue argument is newest-first.
`HALFCYCLES`/`FULLCYCLES` emit one event per adjacent residue pair with
count `1/2` resp. `1`; `REPEATED` concatenates the residue to itself and
re-feeds it through the cycle detector; `NONE`, `_IGNORE`, `_NO_FINALIZE`
and `DISCARD` emit nothing.  The spec gives no algorithm for
`CLORMANN_SEEGER` and `DIN45667`; they are modelled as emitting no events
(no property verified here depends on their event lists). -/
def finalize (method : ResidualMethod) (residue : List TP) : List CycleEvent :=
  match method with
  | .HALFCYCLES => (adjacentPairs residue.reverse).map (fun p => ⟨p.1, p.2, 1/2⟩)
  | .FULLCYCLES => (adjacentPairs residue.reverse).map (fun p => ⟨p.1, p.2, 1⟩)
  | .REPEATED => (feedTPs (residue.reverse ++ residue.reverse)).2
  | _ => []

/-- Modelled from the spec: the residue returned in the result bundle
(§4.5); `DISCARD` drops it, the other policies return it as-is. -/
def residueAfter (method : ResidualMethod) (residue : List TP) : List TP :=
  match method with
  | .DISCARD => []
  | _ => residue

/-- Modelled from the spec: the damage share one cycle event contributes to
each turning point (§3 result bundle, §4.7).  The list is aligned with the
turning-point stream `tps`.  The support depends on the policy (`HALF_23`
the two inner points, `FULL_P2`/`FULL_P3` one point, the ramp and transient
policies the sample range between the inner points, with amplitude
weighting for the amplitude/transient variants); the weights are normalized
so that each event's shares sum to its damage — the invariant the spec
states for all spreading policies.  With weight sum zero the damage is
spread uniformly.  Policy `NONE` attributes nothing. -/
def eventShare (dmgFn : ℚ → ℚ) (cfg : CoreCfg) (tps : List TP) (e : CycleEvent) : List ℚ :=
  let d := eventDamage dmgFn cfg e
  let i2 := e.fromTp.idx
  let i3 := e.toTp.idx
  let w : TP → ℚ :=
    match cfg.spread_damage with
    | .NONE => fun _ => 0
    | .HALF_23 => fun tp => if tp.idx = i2 ∨ tp.idx = i3 then 1 else 0
    | .FULL_P2 => fun tp => if tp.idx = i2 then 1 else 0
    | .FULL_P3 => fun tp => if tp.idx = i3 then 1 else 0
    | .RAMP_DAMAGE_23 => fun tp => if i2 ≤ tp.idx ∧ tp.idx ≤ i3 then 1 else 0
    | .RAMP_DAMAGE_24 => fun tp => if i2 ≤ tp.idx ∧ tp.idx ≤ i3 then 1 else 0
    | _ => fun tp => if i2 ≤ tp.idx ∧ tp.idx ≤ i3 then |tp.value - e.fromTp.value| else 0
  if cfg.spread_damage = .NONE then tps.map (fun _ => 0)
  else
    let ws := tps.map w
    if ws.sum = 0 then tps.map (fun _ => d / tps.length)
    else ws.map (fun x => x / ws.sum * d)

/-- Modelled from the spec: per-turning-point damage attribution, the third
column of the `tp` output (§3): the pointwise sum of every event's shares. -/
def spreadTP (dmgFn : ℚ → ℚ) (cfg : CoreCfg) (tps : List TP) (events : List CycleEvent) : List ℚ :=
  (events.map (eventShare dmgFn cfg tps)).foldr
    (List.zipWith (fun a b => a + b)) (List.replicate tps.length 0)

/-- Add `q` to entry `i` of `l` (out-of-range indices are left alone). -/
def addAt (l : List ℚ) (i : ℕ) (q : ℚ) : List ℚ :=
  l.set i (l.getD i 0 + q)

/-- Modelled from the spec: the damage-history vector the core writes
(§4.7).  Under policy `NONE` the core writes no entries at all (the wrapper
pads).  Under every other policy the vector covers all `n` samples; the
per-sample weighting of the individual policies is not needed by any
property verified here, so each event's damage is written at its closing
turning point's sample index, preserving the per-event sums and the length
contract. -/
def spreadDH (dmgFn : ℚ → ℚ) (cfg : CoreCfg) (n : ℕ) (events : List CycleEvent) : List ℚ :=
  match cfg.spread_damage with
  | .NONE => []
  | _ => events.foldl (fun acc e => addAt acc e.toTp.idx (eventDamage dmgFn cfg e))
      (List.replicate n 0)

/-- The result bundle of one counting run (§3): the emitted cycle events
(carrying the rainflow-matrix counts), the turning points with their damage
attribution, the residue values, the damage history and the total damage. -/
structure RfcBundle where
  events : List CycleEvent
  tp : List TP
  tpDamage : List ℚ
  res : List ℚ
  dh : List ℚ
  damage : ℚ
deriving Repr, DecidableEq

/-- `RFM.sum()`: every event adds its count to one cell of the rainflow
matrix, so the matrix total is the sum of all event counts. -/
def RfcBundle.rfmSum (b : RfcBundle) : ℚ :=
  (b.events.map CycleEvent.cnt).sum

/-- Modelled from the spec: the turning-point stream of one run, classified. -/
def coreTPs (cfg : CoreCfg) (data : List ℚ) : List TP :=
  (turningPoints cfg.hysteresis cfg.enforce_margin data).map
    (fun p => ⟨p.1, p.2, classOf cfg.class_count cfg.class_offset cfg.class_width p.1⟩)

/-- Modelled from the spec: all cycle events of one run — the closed cycles
from the hot loop followed by the residual-finalization events (§2, §4.5). -/
def coreEvents (cfg : CoreCfg) (data : List ℚ) : List CycleEvent :=
  let fd := feedTPs (coreTPs cfg data)
  fd.2 ++ finalize cfg.residual_method fd.1

/-- Modelled from the spec: one counting run of the core (§2, §6) on
already-validated input, assembling the result bundle.  `res` is reported
oldest-first, as the residue values appear in the signal. -/
def rfcCoreRun (dmgFn : ℚ → ℚ) (data : List ℚ) (cfg : CoreCfg) : RfcBundle :=
  { events := coreEvents cfg data
    tp := coreTPs cfg data
    tpDamage := spreadTP dmgFn cfg (coreTPs cfg data) (coreEvents cfg data)
    res := ((residueAfter cfg.residual_method (feedTPs (coreTPs cfg data)).1).reverse).map TP.value
    dh := spreadDH dmgFn cfg data.length (coreEvents cfg data)
    damage := ((coreEvents cfg data).map (eventDamage dmgFn cfg)).sum }

/-- The error kinds of the failure model (§4.9, §7).  `emptyReduction`
models numpy's `ValueError` for a reduction (`ptp`, `min`) over an empty
array; `nonFinite` models the `ValueError` of `asarray_chkfinite`. -/
inductive RfcError
  | nonFinite
  | emptyReduction
  | invalidConfig
  | outOfRange
deriving Repr, DecidableEq

/-- Modelled from the spec: configuration validity (§4.9):
`class_count ≥ 2`, `class_width > 0`, `hysteresis ≥ 0`. -/
def validCfgB (cfg : CoreCfg) : Bool :=
  decide (2 ≤ cfg.class_count) && decide (0 < cfg.class_width) &&
    decide (0 ≤ cfg.hysteresis)

/-- Modelled from the spec: a value is in classing range when it falls in
`[O, O + N·W)` (§3, §4.1). -/
def inRangeB (cfg : CoreCfg) (v : ℚ) : Bool :=
  decide (cfg.class_offset ≤ v) &&
    decide (v < cfg.class_offset + cfg.class_count * cfg.class_width)

/-- Modelled from the spec: the core entry point `rfcnt.rfc` (not among the
Python sources) with its failure model (§4.9): invalid configuration and —
unless `auto_resize` is set — out-of-range values abort the run; otherwise
the counting run executes and the bundle is returned. -/
def rfcCore (dmgFn : ℚ → ℚ) (data : List ℚ) (cfg : CoreCfg) : Except RfcError RfcBundle :=
  if validCfgB cfg then
    if cfg.auto_resize || data.all (inRangeB cfg) then
      .ok (rfcCoreRun dmgFn data cfg)
    else .error .outOfRange
  else .error .invalidConfig

/-- An input sample as the wrapper receives it: a finite value, NaN or an
infinity. -/
inductive Sample
  | num (q : ℚ)
  | nan
  | posInf
  | negInf
deriving Repr, DecidableEq

/-- Whether a sample is finite. -/
def Sample.isFiniteVal : Sample → Bool
  | .num _ => true
  | _ => false

/-- The rational carried by a finite sample (junk on non-finite ones, which
never reach the core). -/
def Sample.toRat : Sample → ℚ
  | .num q => q
  | _ => 0

/-- numpy's `asarray_chkfinite` as called on line 100 of
`python/__init__.py`: raises (`ValueError`) when any entry is NaN or
infinite, otherwise yields the (flattened, freshly copied) double array. -/
def asarray_chkfinite (data : List Sample) : Except RfcError (List ℚ) :=
  if data.all Sample.isFiniteVal then .ok (data.map Sample.toRat)
  else .error .nonFinite

/-- numpy's `max` reduction: fails on an empty array. -/
def npMax : List ℚ → Except RfcError ℚ
  | [] => .error .emptyReduction
  | x :: xs => .ok (xs.foldl max x)

/-- numpy's `min` reduction: fails on an empty array. -/
def npMin : List ℚ → Except RfcError ℚ
  | [] => .error .emptyReduction
  | x :: xs => .ok (xs.foldl min x)

/-- numpy's `ptp` (max − min): fails on an empty array. -/
def npPtp (l : List ℚ) : Except RfcError ℚ :=
  match npMax l, npMin l with
  | .ok hi, .ok lo => .ok (hi - lo)
  | .error e, _ => .error e
  | _, .error e => .error e

/-- The optional keyword arguments of the wrapper `rfc`
(`python/__init__.py`, lines 85–97); `none` stands for an omitted
argument. -/
structure RfcArgs where
  class_count : ℕ
  class_width : Option ℚ
  class_offset : Option ℚ
  hysteresis : Option ℚ
  residual_method : ResidualMethod
  spread_damage : SDMethod
  lc_method : LCMethod
  use_HCM : Bool
  use_ASTM : Bool
  enforce_margin : Bool
  auto_resize : Bool
  wl : Option WL
deriving Repr, DecidableEq

/-- The defaults of the Python signature of `rfc` (`python/__init__.py`,
lines 85–97): `class_count=100`, data-derived classing left unresolved,
`residual_method=REPEATED`, `spread_damage=TRANSIENT_23c`,
`lc_method=SLOPES_UP`, all flags off, `wl` unresolved. -/
def defaultRfcArgs : RfcArgs :=
  { class_count := 100, class_width := none, class_offset := none, hysteresis := none,
    residual_method := .REPEATED, spread_damage := .TRANSIENT_23c,
    lc_method := .SLOPES_UP, use_HCM := false, use_ASTM := false,
    enforce_margin := false, auto_resize := false, wl := none }

/-- The default Wöhler parameters, `dict(sd=1e3, nd=1e7, k=5, k2=5)`
(`python/__init__.py`, line 108). -/
def defaultWL : WL :=
  ⟨1000, 10000000, 5, 5⟩

/-- Default for `class_width` (`python/__init__.py`, lines 101–102):
`data.ptp() / (class_count − 1)` when omitted; `ptp` fails on empty data. -/
def resolveWidth (data : List ℚ) (args : RfcArgs) : Except RfcError ℚ :=
  match args.class_width with
  | some w => .ok w
  | none =>
    match npPtp data with
    | .error e => .error e
    | .ok p => .ok (p / ((args.class_count : ℚ) - 1))

/-- Default for `class_offset` (`python/__init__.py`, lines 103–104):
`data.min() − class_width/2` when omitted; `min` fails on empty data. -/
def resolveOffset (data : List ℚ) (w : ℚ) (args : RfcArgs) : Except RfcError ℚ :=
  match args.class_offset with
  | some o => .ok o
  | none =>
    match npMin data with
    | .error e => .error e
    | .ok m => .ok (m - w / 2)

/-- Default resolution of the wrapper (`python/__init__.py`, lines
101–114): `class_width = data.ptp()/(class_count − 1)`,
`class_offset = data.min() − class_width/2`, `hysteresis = class_width`,
`wl = dict(sd=1e3, nd=1e7, k=5, k2=5)`, each only when omitted. -/
def rfcResolved (data : List ℚ) (args : RfcArgs) : Except RfcError CoreCfg :=
  match resolveWidth data args with
  | .error e => .error e
  | .ok class_width =>
    match resolveOffset data class_width args with
    | .error e => .error e
    | .ok class_offset =>
      .ok { class_count := args.class_count, class_offset := class_offset,
            class_width := class_width, hysteresis := args.hysteresis.getD class_width,
            residual_method := args.residual_method, spread_damage := args.spread_damage,
            lc_method := args.lc_method, use_HCM := args.use_HCM, use_ASTM := args.use_ASTM,
            enforce_margin := args.enforce_margin, auto_resize := args.auto_resize,
            wl := args.wl.getD defaultWL }

/-- The wrapper's `dh` padding (`python/__init__.py`, lines 129–130): when
the core returned fewer entries than there are samples, zeros are appended
on the right. -/
def padRight (l : List ℚ) (n : ℕ) : List ℚ :=
  if l.length < n then l ++ List.replicate (n - l.length) 0 else l

/-- The wrapper `rfc` (`python/__init__.py`, lines 85–131): check
finiteness and copy the input, resolve the defaults, run the core, pad
`dh`; every raised error propagates to the caller unchanged. -/
def rfc (dmgFn : ℚ → ℚ) (data : List Sample) (args : RfcArgs) : Except RfcError RfcBundle :=
  match asarray_chkfinite data with
  | .error e => .error e
  | .ok d =>
    match rfcResolved d args with
    | .error e => .error e
    | .ok cfg =>
      match rfcCore dmgFn d cfg with
      | .error e => .error e
      | .ok core => .ok { core with dh := padRight core.dh d.length }

/-- The return value of `rpplot_prepare` (`src/python/utils.py`): a dict
with exactly the keys `sa`, `counts` and `sa_max`; `none` models the NaN
placed in `sa_max` when no count is positive. -/
structure RPPlot where
  sa : List ℚ
  counts : List ℚ
  sa_max : Option ℚ
deriving Repr, DecidableEq

/-- `rpplot_prepare` from `src/python/utils.py`: flatten and pair the two
inputs, keep the positions with positive count, sort them by stress
amplitude descending (counts carried along by the same permutation), and
record the maximum amplitude — NaN (`none`) when nothing is kept. -/
def rpplot_prepare (sa counts : List ℚ) : RPPlot :=
  let pairs := (List.zip sa counts).filter (fun p => decide (0 < p.2))
  if pairs.isEmpty then
    { sa := pairs.map Prod.fst, counts := pairs.map Prod.snd, sa_max := none }
  else
    let sorted := pairs.mergeSort (fun a b => decide (b.1 ≤ a.1))
    { sa := sorted.map Prod.fst, counts := sorted.map Prod.snd,
      sa_max := (sorted.map Prod.fst).head? }

/-! ## Helper lemmas -/

/-- The detector is fuel-irrelevant once the fuel covers the stack length. -/
theorem detectGo_eq_of_le : ∀ (f g : ℕ) (s : List TP), s.length ≤ f → s.length ≤ g →
    detectGo f s = detectGo g s := by
  intro f
  induction f with
  | zero =>
    intro g s hf _
    have hs : s = [] := List.eq_nil_of_length_eq_zero (Nat.le_zero.mp hf)
    subst hs
    cases g <;> simp [detectGo]
  | succ f ih =>
    intro g s hf hg
    match s with
    | [] => cases g <;> simp [detectGo]
    | [a] =>
      cases g with
      | zero => simp at hg
      | succ g => simp [detectGo]
    | [a, b] =>
      cases g with
      | zero => simp at hg
      | succ g => simp [detectGo]
    | [a, b, c] =>
      cases g with
      | zero => simp at hg
      | succ g => simp [detectGo]
    | p4 :: p3 :: p2 :: p1 :: rest =>
      cases g with
      | zero => simp at hg
      | succ g =>
        simp only [detectGo]
        have h2 : (p4 :: p1 :: rest).length ≤ f := by
          simp at hf ⊢; omega
        have h2g : (p4 :: p1 :: rest).length ≤ g := by
          simp at hg ⊢; omega
        rw [ih g (p4 :: p1 :: rest) h2 h2g]

/-- Unfolding `detect` on a stack of at least four when the four-point test
holds: one event is emitted and the loop continues on the reduced stack. -/
theorem detect_cons_close (p1 p2 p3 p4 : TP) (rest : List TP)
    (hc : closeQ p1 p2 p3 p4 = true) :
    detect (p4 :: p3 :: p2 :: p1 :: rest) =
      ((detect (p4 :: p1 :: rest)).1, ⟨p2, p3, 1⟩ :: (detect (p4 :: p1 :: rest)).2) := by
  show detectGo (p4 :: p3 :: p2 :: p1 :: rest).length _ = _
  have hlen : (p4 :: p3 :: p2 :: p1 :: rest).length = rest.length + 4 := by simp
  rw [hlen]
  simp only [detectGo, hc, if_true]
  rw [detectGo_eq_of_le (rest.length + 3) (p4 :: p1 :: rest).length (p4 :: p1 :: rest)
    (by simp) (by simp)]
  exact rfl

/-- Unfolding `detect` on a stack of at least four when the four-point test
fails: nothing happens. -/
theorem detect_cons_stop (p1 p2 p3 p4 : TP) (rest : List TP)
    (hc : closeQ p1 p2 p3 p4 = false) :
    detect (p4 :: p3 :: p2 :: p1 :: rest) = (p4 :: p3 :: p2 :: p1 :: rest, []) := by
  show detectGo (p4 :: p3 :: p2 :: p1 :: rest).length _ = _
  have hlen : (p4 :: p3 :: p2 :: p1 :: rest).length = rest.length + 4 := by simp
  rw [hlen]
  simp [detectGo, hc]

/-! ## Claim theorems -/

/-- C1: four-point close-cycle rule.  With the residue stack holding at
least four turning points whose top four are `P1, P2, P3, P4` (stack held
newest-first, so `P4` is the head), a cycle `(P2 → P3)` is closed exactly
when `|P2 − P3| ≤ |P1 − P2|` and `|P2 − P3| ≤ |P3 − P4|`, with non-strict
comparisons; on closure one `CycleEvent` with `fromTp = P2`, `toTp = P3`,
count `1` is emitted, the inner two entries are removed with `P1` and `P4`
preserved, and the rule is re-checked on the reduced stack; otherwise
detection stops with the stack unchanged and no events. -/
theorem fourPoint_close_rule (p1 p2 p3 p4 : TP) (rest : List TP) :
    (|p2.value - p3.value| ≤ |p1.value - p2.value| ∧
        |p2.value - p3.value| ≤ |p3.value - p4.value| →
      detect (p4 :: p3 :: p2 :: p1 :: rest) =
        ((detect (p4 :: p1 :: rest)).1, ⟨p2, p3, 1⟩ :: (detect (p4 :: p1 :: rest)).2)) ∧
    (¬(|p2.value - p3.value| ≤ |p1.value - p2.value| ∧
        |p2.value - p3.value| ≤ |p3.value - p4.value|) →
      detect (p4 :: p3 :: p2 :: p1 :: rest) = (p4 :: p3 :: p2 :: p1 :: rest, [])) := by
  constructor
  · intro h
    exact detect_cons_close p1 p2 p3 p4 rest
      (by simp only [closeQ, Bool.and_eq_true, decide_eq_true_eq]; exact h)
  · intro h
    refine detect_cons_stop p1 p2 p3 p4 rest ?_
    simp only [closeQ, Bool.and_eq_false_iff, decide_eq_false_iff_not]
    tauto

/-- C1 witness: on the turning points of `[1, 3, 2, 4]` (classes for a
4-class scheme) the inner pair `(3, 2)` closes and the stack keeps `1`
and `4`. -/
theorem fourPoint_close_rule_w :
    (|(3:ℚ) - 2| ≤ |1 - 3| ∧ |(3:ℚ) - 2| ≤ |2 - 4|) ∧
      detect [⟨4, 3, 3⟩, ⟨2, 2, 1⟩, ⟨3, 1, 2⟩, ⟨1, 0, 0⟩] =
        ([⟨4, 3, 3⟩, ⟨1, 0, 0⟩], [⟨⟨3, 1, 2⟩, ⟨2, 2, 1⟩, 1⟩]) := by
  have hcond : |(3:ℚ) - 2| ≤ |1 - 3| ∧ |(3:ℚ) - 2| ≤ |2 - 4| := by norm_num
  have h := (fourPoint_close_rule ⟨1, 0, 0⟩ ⟨3, 1, 2⟩ ⟨2, 2, 1⟩ ⟨4, 3, 3⟩ []).1 hcond
  refine ⟨hcond, ?_⟩
  rw [h]
  simp [detect, detectGo]

/-- C8: the public enumerations expose exactly the stable integer values of
the Python sources (`ResidualMethod`, `SDMethod`, `LCMethod` in
`python/__init__.py`; `_IGNORE`/`_NO_FINALIZE` are spelled without the
leading underscore here), in particular `LCMethod.SLOPES_ALL = 3`. -/
theorem enum_values :
    ResidualMethod.NONE.value = 0 ∧ ResidualMethod.IGNORE.value = 1 ∧
      ResidualMethod.NO_FINALIZE.value = 2 ∧ ResidualMethod.DISCARD.value = 3 ∧
      ResidualMethod.HALFCYCLES.value = 4 ∧ ResidualMethod.FULLCYCLES.value = 5 ∧
      ResidualMethod.CLORMANN_SEEGER.value = 6 ∧ ResidualMethod.REPEATED.value = 7 ∧
      ResidualMethod.DIN45667.value = 8 ∧
      SDMethod.NONE.value = -1 ∧ SDMethod.HALF_23.value = 0 ∧
      SDMethod.RAMP_AMPLITUDE_23.value = 1 ∧ SDMethod.RAMP_DAMAGE_23.value = 2 ∧
      SDMethod.RAMP_AMPLITUDE_24.value = 3 ∧ SDMethod.RAMP_DAMAGE_24.value = 4 ∧
      SDMethod.FULL_P2.value = 5 ∧ SDMethod.FULL_P3.value = 6 ∧
      SDMethod.TRANSIENT_23.value = 7 ∧ SDMethod.TRANSIENT_23c.value = 8 ∧
      LCMethod.SLOPES_UP.value = 0 ∧ LCMethod.SLOPES_DOWN.value = 1 ∧
      LCMethod.SLOPES_ALL.value = 3 := by
  decide

/-- Residual finalization of an empty residue emits no events. -/
theorem finalize_nil (m : ResidualMethod) : finalize m [] = [] := by
  cases m <;> rfl

/-- The reported residue of an empty residue is empty under every policy. -/
theorem residueAfter_nil (m : ResidualMethod) : residueAfter m [] = [] := by
  cases m <;> rfl

/-- With no samples and no events the damage history is empty. -/
theorem spreadDH_nil (dmgFn : ℚ → ℚ) (cfg : CoreCfg) :
    spreadDH dmgFn cfg 0 [] = [] := by
  cases h : cfg.spread_damage <;> simp [spreadDH, h]

/-- A counting run over no samples produces the all-zero bundle. -/
theorem rfcCoreRun_nil (dmgFn : ℚ → ℚ) (cfg : CoreCfg) :
    rfcCoreRun dmgFn [] cfg = ⟨[], [], [], [], [], 0⟩ := by
  have htp : coreTPs cfg [] = [] := by simp [coreTPs, turningPoints]
  have hev : coreEvents cfg [] = [] := by
    simp [coreEvents, htp, feedTPs, finalize_nil]
  simp [rfcCoreRun, htp, hev, feedTPs, residueAfter_nil, spreadTP, spreadDH_nil]

/-- A valid configuration accepts the empty input and returns the all-zero
bundle. -/
theorem rfcCore_nil_ok (dmgFn : ℚ → ℚ) (cfg : CoreCfg) (h : validCfgB cfg = true) :
    rfcCore dmgFn [] cfg = .ok ⟨[], [], [], [], [], 0⟩ := by
  simp [rfcCore, h, rfcCoreRun_nil]

/-- End-to-end evaluation of the wrapper on the empty input when both
classing parameters are given explicitly and the configuration is valid. -/
theorem rfc_empty_eval (dmgFn : ℚ → ℚ) (args : RfcArgs) (w o : ℚ)
    (hw : args.class_width = some w) (ho : args.class_offset = some o)
    (hcc : 2 ≤ args.class_count) (hwpos : 0 < w) (hh : 0 ≤ args.hysteresis.getD w) :
    rfc dmgFn [] args = .ok ⟨[], [], [], [], [], 0⟩ := by
  have hres : rfcResolved [] args = .ok
      { class_count := args.class_count, class_offset := o, class_width := w,
        hysteresis := args.hysteresis.getD w, residual_method := args.residual_method,
        spread_damage := args.spread_damage, lc_method := args.lc_method,
        use_HCM := args.use_HCM, use_ASTM := args.use_ASTM,
        enforce_margin := args.enforce_margin, auto_resize := args.auto_resize,
        wl := args.wl.getD defaultWL } := by
    simp [rfcResolved, resolveWidth, resolveOffset, hw, ho]
  have hval : validCfgB
      { class_count := args.class_count, class_offset := o, class_width := w,
        hysteresis := args.hysteresis.getD w, residual_method := args.residual_method,
        spread_damage := args.spread_damage, lc_method := args.lc_method,
        use_HCM := args.use_HCM, use_ASTM := args.use_ASTM,
        enforce_margin := args.enforce_margin, auto_resize := args.auto_resize,
        wl := args.wl.getD defaultWL } = true := by
    simp only [validCfgB, Bool.and_eq_true, decide_eq_true_eq]
    exact ⟨⟨hcc, hwpos⟩, hh⟩
  simp [rfc, asarray_chkfinite, hres, rfcCore_nil_ok _ _ hval, padRight]

/-- C2 counterexample: called on the empty input with the classing
parameters left at their defaults, the wrapper evaluates `data.ptp()` on a
zero-size array, which raises; `rfc` fails instead of returning the
all-zero bundle the claim promises for every valid configuration. -/
theorem rfc_empty_default_fails :
    rfc (fun _ => 0) [] defaultRfcArgs = .error .emptyReduction := by
  rfl

/-- C2 (amended): on the empty input, with `class_width` and `class_offset`
supplied explicitly and the configuration valid, `rfc` succeeds and returns
the all-zero bundle: `RFM.sum() = 0`, empty residue, `dh` of length 0 and
zero damage.  (With the classing parameters left at their defaults the
wrapper fails on empty input, see the counterexample.) -/
theorem rfc_empty_explicit_ok (dmgFn : ℚ → ℚ) (args : RfcArgs) (w o : ℚ)
    (hw : args.class_width = some w) (ho : args.class_offset = some o)
    (hcc : 2 ≤ args.class_count) (hwpos : 0 < w) (hh : 0 ≤ args.hysteresis.getD w) :
    ∃ b, rfc dmgFn [] args = Except.ok b ∧ b.rfmSum = 0 ∧ b.res = [] ∧
      b.dh = [] ∧ b.damage = 0 :=
  ⟨⟨[], [], [], [], [], 0⟩, rfc_empty_eval dmgFn args w o hw ho hcc hwpos hh,
    rfl, rfl, rfl, rfl⟩

/-- Arguments with explicit unit classing, used by concrete instantiations. -/
def argsExplicit : RfcArgs :=
  { class_count := 100, class_width := some 1, class_offset := some 0, hysteresis := none,
    residual_method := .NONE, spread_damage := .NONE, lc_method := .SLOPES_UP,
    use_HCM := false, use_ASTM := false, enforce_margin := false, auto_resize := false,
    wl := none }

/-- C2 witness: the amended statement at the concrete explicit
configuration `argsExplicit`. -/
theorem rfc_empty_explicit_ok_w :
    ∃ b, rfc (fun _ => 0) [] argsExplicit = Except.ok b ∧ b.rfmSum = 0 ∧
      b.res = [] ∧ b.dh = [] ∧ b.damage = 0 :=
  rfc_empty_explicit_ok (fun _ => 0) argsExplicit 1 0 rfl rfl
    (by norm_num [argsExplicit]) (by norm_num) (by simp [argsExplicit])

/-- `addAt` preserves the length of the vector. -/
theorem addAt_length (l : List ℚ) (i : ℕ) (q : ℚ) : (addAt l i q).length = l.length := by
  simp [addAt]

/-- Folding damage writes over events preserves the vector length. -/
theorem foldl_addAt_length (dmgFn : ℚ → ℚ) (cfg : CoreCfg) (events : List CycleEvent) :
    ∀ acc : List ℚ,
      (events.foldl (fun a e => addAt a e.toTp.idx (eventDamage dmgFn cfg e)) acc).length
        = acc.length := by
  induction events with
  | nil => intro acc; rfl
  | cons e es ih => intro acc; rw [List.foldl_cons, ih, addAt_length]

/-- The core's damage history has either no entries (policy `NONE`) or one
entry per sample. -/
theorem spreadDH_length (dmgFn : ℚ → ℚ) (cfg : CoreCfg) (n : ℕ) (events : List CycleEvent) :
    (spreadDH dmgFn cfg n events).length = 0 ∨ (spreadDH dmgFn cfg n events).length = n := by
  cases h : cfg.spread_damage
  case NONE => exact Or.inl (by simp [spreadDH, h])
  all_goals exact Or.inr (by simp [spreadDH, h, foldl_addAt_length])

/-- Padding stretches a short vector to length `n`. -/
theorem padRight_length (l : List ℚ) (n : ℕ) (h : l.length ≤ n) :
    (padRight l n).length = n := by
  rw [padRight]
  by_cases hlt : l.length < n
  · rw [if_pos hlt]; simp; omega
  · rw [if_neg hlt]; omega

/-- Padding appends exactly the missing zeros on the right. -/
theorem padRight_pad (l : List ℚ) (n : ℕ) (h : l.length ≤ n) :
    padRight l n = l ++ List.replicate (n - l.length) 0 := by
  rw [padRight]
  by_cases hlt : l.length < n
  · rw [if_pos hlt]
  · rw [if_neg hlt]
    have h0 : n - l.length = 0 := by omega
    simp [h0]

/-- The finiteness check preserves the sample count. -/
theorem asarray_chkfinite_length (data : List Sample) (d : List ℚ)
    (h : asarray_chkfinite data = .ok d) : d.length = data.length := by
  simp only [asarray_chkfinite] at h
  split at h
  · cases h; simp
  · cases h

/-- A successful core call returns the counting run's bundle. -/
theorem rfcCore_ok (dmgFn : ℚ → ℚ) (d : List ℚ) (cfg : CoreCfg) (core : RfcBundle)
    (h : rfcCore dmgFn d cfg = .ok core) : core = rfcCoreRun dmgFn d cfg := by
  simp only [rfcCore] at h
  split at h
  · split at h
    · cases h; rfl
    · cases h
  · cases h

/-- C3: whenever `rfc` returns, the `dh` vector has exactly one entry per
input sample, and it is the core's (possibly shorter) damage history padded
with zeros on the right — the wrapper's length contract
(`python/__init__.py`, lines 129–130). -/
theorem rfc_dh_length (dmgFn : ℚ → ℚ) (data : List Sample) (args : RfcArgs) (b : RfcBundle)
    (h : rfc dmgFn data args = Except.ok b) :
    b.dh.length = data.length ∧
      ∃ c : List ℚ, c.length ≤ data.length ∧
        b.dh = c ++ List.replicate (data.length - c.length) 0 := by
  rcases hchk : asarray_chkfinite data with e | d
  · simp only [rfc.eq_def, hchk] at h
    cases h
  rcases hres : rfcResolved d args with e | cfg
  · simp only [rfc.eq_def, hchk, hres] at h
    cases h
  rcases hcore : rfcCore dmgFn d cfg with e | core
  · simp only [rfc.eq_def, hchk, hres, hcore] at h
    cases h
  simp only [rfc.eq_def, hchk, hres, hcore, Except.ok.injEq] at h
  subst h
  have hlen : d.length = data.length := asarray_chkfinite_length data d hchk
  have hc2 : core = rfcCoreRun dmgFn d cfg := rfcCore_ok dmgFn d cfg core hcore
  have hdh : core.dh.length ≤ d.length := by
    rw [hc2]
    show (spreadDH dmgFn cfg d.length (coreEvents cfg d)).length ≤ d.length
    rcases spreadDH_length dmgFn cfg d.length (coreEvents cfg d) with h0 | hn
    · omega
    · omega
  constructor
  · show (padRight core.dh d.length).length = data.length
    rw [padRight_length core.dh d.length hdh, hlen]
  · refine ⟨core.dh, by omega, ?_⟩
    show padRight core.dh d.length = core.dh ++ List.replicate (data.length - core.dh.length) 0
    rw [padRight_pad core.dh d.length hdh, hlen]

/-- C3 witness: at the concrete call on the empty series the returned `dh`
has the input's length. -/
theorem rfc_dh_length_w :
    (RfcBundle.mk [] [] [] [] [] 0).dh.length = ([] : List Sample).length := by
  have h : rfc (fun _ => 0) [] argsExplicit = Except.ok ⟨[], [], [], [], [], 0⟩ :=
    rfc_empty_eval (fun _ => 0) argsExplicit 1 0 rfl rfl (by norm_num [argsExplicit])
      (by norm_num) (by simp [argsExplicit])
  exact (rfc_dh_length (fun _ => 0) [] argsExplicit _ h).1

/-- C4: with every optional argument omitted, the wrapper resolves exactly
the documented defaults: `class_count = 100`,
`class_width = (max − min)/(class_count − 1)`,
`class_offset = min − class_width/2`, `hysteresis = class_width`,
`residual_method = REPEATED` and `wl = {sd: 1e3, nd: 1e7, k: 5, k2: 5}`
(`python/__init__.py`, lines 85–114). -/
theorem rfc_default_resolution (x : ℚ) (xs : List ℚ) :
    rfcResolved (x :: xs) defaultRfcArgs = .ok
      { class_count := 100,
        class_offset := xs.foldl min x - (xs.foldl max x - xs.foldl min x) / ((100:ℚ) - 1) / 2,
        class_width := (xs.foldl max x - xs.foldl min x) / ((100:ℚ) - 1),
        hysteresis := (xs.foldl max x - xs.foldl min x) / ((100:ℚ) - 1),
        residual_method := .REPEATED, spread_damage := .TRANSIENT_23c,
        lc_method := .SLOPES_UP, use_HCM := false, use_ASTM := false,
        enforce_margin := false, auto_resize := false,
        wl := ⟨1000, 10000000, 5, 5⟩ } := by
  simp [rfcResolved, resolveWidth, resolveOffset, defaultRfcArgs, npPtp, npMax, npMin,
    defaultWL]

/-- C5: an input containing any non-finite sample (NaN or an infinity)
makes `rfc` fail with the non-finite error before the core runs; no result
bundle is produced (`asarray_chkfinite` on line 100 of
`python/__init__.py`). -/
theorem rfc_nonfinite_error (dmgFn : ℚ → ℚ) (data : List Sample) (args : RfcArgs)
    (h : ∃ s ∈ data, s.isFiniteVal = false) :
    rfc dmgFn data args = .error .nonFinite := by
  have hall : data.all Sample.isFiniteVal = false := by
    rw [List.all_eq_false]
    obtain ⟨s, hs, hf⟩ := h
    exact ⟨s, hs, by simp [hf]⟩
  simp [rfc, asarray_chkfinite, hall]

/-- C5 witness: a singleton NaN input fails with the non-finite error. -/
theorem rfc_nonfinite_error_w :
    rfc (fun _ => 0) [Sample.nan] defaultRfcArgs = .error .nonFinite :=
  rfc_nonfinite_error (fun _ => 0) [Sample.nan] defaultRfcArgs
    ⟨Sample.nan, List.mem_singleton_self _, rfl⟩

/-- Pointwise addition of equal-length vectors adds their sums. -/
theorem zipWith_add_sum : ∀ (a b : List ℚ), a.length = b.length →
    (List.zipWith (fun x y => x + y) a b).sum = a.sum + b.sum := by
  intro a
  induction a with
  | nil =>
    intro b hb
    have hb0 : b = [] := List.eq_nil_of_length_eq_zero hb.symm
    simp [hb0]
  | cons x xs ih =>
    intro b hb
    cases b with
    | nil => simp at hb
    | cons y ys =>
      simp only [List.zipWith_cons_cons, List.sum_cons]
      rw [ih ys (by simpa using hb)]
      ring

/-- An event's share vector is aligned with the turning-point stream. -/
theorem eventShare_length (dmgFn : ℚ → ℚ) (cfg : CoreCfg) (tps : List TP) (e : CycleEvent) :
    (eventShare dmgFn cfg tps e).length = tps.length := by
  simp only [eventShare]
  split
  · simp
  · split <;> simp

/-- The damage-attribution vector is aligned with the turning-point stream. -/
theorem spreadTP_length (dmgFn : ℚ → ℚ) (cfg : CoreCfg) (tps : List TP)
    (events : List CycleEvent) :
    (spreadTP dmgFn cfg tps events).length = tps.length := by
  induction events with
  | nil => simp [spreadTP]
  | cons e es ih =>
    simp only [spreadTP, List.map_cons, List.foldr_cons] at ih ⊢
    rw [List.length_zipWith, eventShare_length, ih, min_self]

/-- Summing a rescaled vector rescales the sum. -/
theorem sum_map_div_mul (l : List ℚ) (w d : ℚ) :
    (l.map (fun x => x / w * d)).sum = l.sum / w * d := by
  induction l with
  | nil => simp
  | cons x xs ih =>
    simp only [List.map_cons, List.sum_cons, ih]
    ring

/-- Summing a constant vector multiplies by the length. -/
theorem sum_map_uniform (l : List TP) (c : ℚ) :
    (l.map (fun _ => c)).sum = l.length * c := by
  induction l with
  | nil => simp
  | cons x xs ih =>
    simp only [List.map_cons, List.sum_cons, ih, List.length_cons]
    push_cast
    ring

/-- Each event's shares sum exactly to the event's damage — the invariant
the spec states for every spreading policy other than `NONE` (§4.7). -/
theorem eventShare_sum (dmgFn : ℚ → ℚ) (cfg : CoreCfg) (tps : List TP) (e : CycleEvent)
    (htps : tps ≠ []) (hsd : cfg.spread_damage ≠ SDMethod.NONE) :
    (eventShare dmgFn cfg tps e).sum = eventDamage dmgFn cfg e := by
  have hlen : (tps.length : ℚ) ≠ 0 := by
    have := List.length_pos.mpr htps
    exact_mod_cast Nat.pos_iff_ne_zero.mp this
  simp only [eventShare, if_neg hsd]
  split
  · rw [sum_map_uniform, mul_comm, div_mul_cancel₀ _ hlen]
  · rename_i hW
    rw [sum_map_div_mul, div_self hW, one_mul]

/-- The turning-point damage attribution sums to the total event damage. -/
theorem spreadTP_sum (dmgFn : ℚ → ℚ) (cfg : CoreCfg) (tps : List TP)
    (events : List CycleEvent) (htps : tps ≠ [])
    (hsd : cfg.spread_damage ≠ SDMethod.NONE) :
    (spreadTP dmgFn cfg tps events).sum = (events.map (eventDamage dmgFn cfg)).sum := by
  induction events with
  | nil => simp [spreadTP]
  | cons e es ih =>
    have h2 := spreadTP_length dmgFn cfg tps es
    simp only [spreadTP, List.map_cons, List.foldr_cons] at ih h2 ⊢
    rw [zipWith_add_sum _ _ (by rw [eventShare_length, h2]), ih,
      eventShare_sum dmgFn cfg tps e htps hsd, List.sum_cons]

/-- With no turning points there are neither closed cycles nor residual
events. -/
theorem coreEvents_nil_of_tps_nil (cfg : CoreCfg) (data : List ℚ)
    (h : coreTPs cfg data = []) : coreEvents cfg data = [] := by
  simp [coreEvents, h, feedTPs, finalize_nil]

/-- C6 (amended): damage coherence.  For every input and configuration
whose spreading policy attributes damage (`spread_damage ≠ NONE`) — and
every residual method, covering both `residual ≠ NONE` and the long-series
setting `residual = NONE` with `RAMP_AMPLITUDE_23` — the per-turning-point
damage attribution sums exactly to the reported total damage (exact
equality in ℚ, hence within every relative tolerance).  The restriction to
`spread_damage ≠ NONE` is necessary: under spreading policy `NONE` no
damage is attributed to any turning point while the total still
accumulates, so the equality fails whenever the damage is nonzero, also
with `residual_method ≠ NONE` — see the counterexample below. -/
theorem damage_coherence (dmgFn : ℚ → ℚ) (data : List ℚ) (cfg : CoreCfg)
    (h : cfg.spread_damage ≠ SDMethod.NONE) :
    (rfcCoreRun dmgFn data cfg).tpDamage.sum = (rfcCoreRun dmgFn data cfg).damage := by
  show (spreadTP dmgFn cfg (coreTPs cfg data) (coreEvents cfg data)).sum
    = ((coreEvents cfg data).map (eventDamage dmgFn cfg)).sum
  by_cases htps : coreTPs cfg data = []
  · rw [coreEvents_nil_of_tps_nil cfg data htps, htps]
    simp [spreadTP]
  · exact spreadTP_sum dmgFn cfg _ _ htps h

/-- The long-series test configuration scaled down to a 4-class scheme:
`residual_method = NONE`, `spread_damage = RAMP_AMPLITUDE_23`. -/
def cfgAmp23 : CoreCfg :=
  { class_count := 4, class_offset := 1/2, class_width := 1, hysteresis := 99/100,
    residual_method := .NONE, spread_damage := .RAMP_AMPLITUDE_23,
    lc_method := .SLOPES_UP, use_HCM := false, use_ASTM := false,
    enforce_margin := true, auto_resize := false, wl := defaultWL }

/-- C6 witness: the coherence equality at the concrete input `[1, 3, 2, 4]`
under `residual = NONE` and `spread = RAMP_AMPLITUDE_23`. -/
theorem damage_coherence_w :
    cfgAmp23.spread_damage ≠ SDMethod.NONE ∧
      (rfcCoreRun (fun _ => 1) [1, 3, 2, 4] cfgAmp23).tpDamage.sum
        = (rfcCoreRun (fun _ => 1) [1, 3, 2, 4] cfgAmp23).damage :=
  ⟨by decide, damage_coherence (fun _ => 1) [1, 3, 2, 4] cfgAmp23 (by decide)⟩

/-- Under spreading policy `NONE` the attribution vector is all zeros, so
its sum vanishes whatever the events. -/
theorem spreadTP_sum_none (dmgFn : ℚ → ℚ) (cfg : CoreCfg) (tps : List TP)
    (events : List CycleEvent) (h : cfg.spread_damage = SDMethod.NONE) :
    (spreadTP dmgFn cfg tps events).sum = 0 := by
  induction events with
  | nil => simp [spreadTP]
  | cons e es ih =>
    have h2 := spreadTP_length dmgFn cfg tps es
    simp only [spreadTP, List.map_cons, List.foldr_cons] at ih h2 ⊢
    rw [zipWith_add_sum _ _ (by rw [eventShare_length, h2]), ih, add_zero]
    simp only [eventShare, if_pos h]
    rw [sum_map_uniform, mul_zero]

/-- A configuration with `residual_method = FULLCYCLES` (≠ NONE) but
`spread_damage = NONE`: the setting on which the frozen claim's first part
fails. -/
def cfgSpreadNone : CoreCfg :=
  { class_count := 4, class_offset := 0, class_width := 1, hysteresis := 99/100,
    residual_method := .FULLCYCLES, spread_damage := .NONE,
    lc_method := .SLOPES_UP, use_HCM := false, use_ASTM := false,
    enforce_margin := true, auto_resize := false, wl := defaultWL }

/-- C6 counterexample: with `residual_method = FULLCYCLES ≠ NONE` but
`spread_damage = NONE`, the run on `[1, 3]` emits one full residual cycle
(total damage `1`) while no damage at all is attributed to the turning
points (`tpDamage` sums to `0`), so the claim's first part — coherence
whenever `residual_method ≠ NONE`, with no condition on the spreading
policy — is false. -/
theorem damage_coherence_cex :
    cfgSpreadNone.residual_method ≠ ResidualMethod.NONE ∧
      (rfcCoreRun (fun _ => 1) [1, 3] cfgSpreadNone).tpDamage.sum
        ≠ (rfcCoreRun (fun _ => 1) [1, 3] cfgSpreadNone).damage := by
  constructor
  · decide
  · have htp : turningPoints (99/100) true [1, 3] = [(1, 0), (3, 1)] := by
      norm_num [turningPoints, filterStep, List.enumFrom, abs_of_pos]
    have htps : coreTPs cfgSpreadNone [1, 3] =
        [⟨1, 0, classOf 4 0 1 1⟩, ⟨3, 1, classOf 4 0 1 3⟩] := by
      simp [coreTPs, cfgSpreadNone, htp]
    have hce : coreEvents cfgSpreadNone [1, 3] =
        [⟨⟨1, 0, classOf 4 0 1 1⟩, ⟨3, 1, classOf 4 0 1 3⟩, 1⟩] := by
      simp only [coreEvents]
      rw [htps]
      simp [cfgSpreadNone, feedTPs, detect, detectGo, finalize, adjacentPairs]
    have h0 : (rfcCoreRun (fun _ => 1) [1, 3] cfgSpreadNone).tpDamage.sum = 0 :=
      spreadTP_sum_none _ _ _ _ rfl
    have h1 : (rfcCoreRun (fun _ => 1) [1, 3] cfgSpreadNone).damage = 1 := by
      show ((coreEvents cfgSpreadNone [1, 3]).map
        (eventDamage (fun _ => 1) cfgSpreadNone)).sum = 1
      rw [hce]
      simp [eventDamage]
    rw [h0, h1]
    norm_num

/-- Zipping the projections of a pair list restores the list. -/
theorem zip_fst_snd (l : List (ℚ × ℚ)) :
    (l.map Prod.fst).zip (l.map Prod.snd) = l := by
  have h := List.zip_unzip l
  rwa [List.unzip_eq_map] at h

/-- C10: `rpplot_prepare` (the `src/python/utils.py` version) keeps exactly
the input positions with positive count (as a permutation of the filtered
pairs, so corresponding `sa`/`counts` pairs are preserved), returns `sa`
sorted non-increasingly, and sets `sa_max` to the maximum kept amplitude —
`none` (NaN) when no count is positive or the inputs are empty. -/
theorem rpplot_prepare_spec (sa counts : List ℚ) (h : sa.length = counts.length) :
    ((rpplot_prepare sa counts).sa.zip (rpplot_prepare sa counts).counts).Perm
        ((List.zip sa counts).filter (fun p => decide (0 < p.2))) ∧
      (rpplot_prepare sa counts).sa.Pairwise (fun a b => b ≤ a) ∧
      ((List.zip sa counts).filter (fun p => decide (0 < p.2)) = [] →
        (rpplot_prepare sa counts).sa_max = none) ∧
      ((List.zip sa counts).filter (fun p => decide (0 < p.2)) ≠ [] →
        ∃ m, (rpplot_prepare sa counts).sa_max = some m ∧
          m ∈ (rpplot_prepare sa counts).sa ∧
          ∀ v ∈ (rpplot_prepare sa counts).sa, v ≤ m) := by
  by_cases hpe : ((List.zip sa counts).filter (fun p => decide (0 < p.2))).isEmpty = true
  · have hnil := List.isEmpty_iff.mp hpe
    have hres : rpplot_prepare sa counts = ⟨[], [], none⟩ := by
      simp only [rpplot_prepare]
      rw [if_pos hpe, hnil]
      rfl
    rw [hres, hnil]
    exact ⟨List.Perm.refl _, List.Pairwise.nil, fun _ => rfl, fun hne => absurd rfl hne⟩
  · have hne : ((List.zip sa counts).filter (fun p => decide (0 < p.2))) ≠ [] := by
      intro h0
      rw [h0] at hpe
      exact hpe rfl
    have hperm : ((List.zip sa counts).filter (fun p => decide (0 < p.2))).mergeSort
        (fun a b => decide (b.1 ≤ a.1)) |>.Perm
          ((List.zip sa counts).filter (fun p => decide (0 < p.2))) :=
      List.mergeSort_perm _ _
    have hsorted : (((List.zip sa counts).filter (fun p => decide (0 < p.2))).mergeSort
        (fun a b => decide (b.1 ≤ a.1))).Pairwise (fun a b => decide (b.1 ≤ a.1) = true) :=
      List.sorted_mergeSort
        (fun a b c hab hbc => by
          simp only [decide_eq_true_eq] at hab hbc ⊢
          exact le_trans hbc hab)
        (fun a b => by
          simp only [Bool.or_eq_true, decide_eq_true_eq]
          exact le_total b.1 a.1)
        _
    have hsne : (((List.zip sa counts).filter (fun p => decide (0 < p.2))).mergeSort
        (fun a b => decide (b.1 ≤ a.1))) ≠ [] := by
      intro h0
      rw [h0] at hperm
      exact hne hperm.nil_eq.symm
    have hres : rpplot_prepare sa counts =
        ⟨(((List.zip sa counts).filter (fun p => decide (0 < p.2))).mergeSort
            (fun a b => decide (b.1 ≤ a.1))).map Prod.fst,
          (((List.zip sa counts).filter (fun p => decide (0 < p.2))).mergeSort
            (fun a b => decide (b.1 ≤ a.1))).map Prod.snd,
          ((((List.zip sa counts).filter (fun p => decide (0 < p.2))).mergeSort
            (fun a b => decide (b.1 ≤ a.1))).map Prod.fst).head?⟩ := by
      simp only [rpplot_prepare]
      rw [if_neg hpe]
    have hpw : ((((List.zip sa counts).filter (fun p => decide (0 < p.2))).mergeSort
        (fun a b => decide (b.1 ≤ a.1))).map Prod.fst).Pairwise (fun a b => b ≤ a) :=
      List.pairwise_map.mpr (hsorted.imp (fun hab => by simpa using hab))
    rw [hres]
    refine ⟨?_, hpw, fun h0 => absurd h0 hne, fun _ => ?_⟩
    · rw [zip_fst_snd]
      exact hperm
    · obtain ⟨a, rest, hcons⟩ : ∃ a rest,
          (((List.zip sa counts).filter (fun p => decide (0 < p.2))).mergeSort
            (fun a b => decide (b.1 ≤ a.1))).map Prod.fst = a :: rest := by
        cases hl : (((List.zip sa counts).filter (fun p => decide (0 < p.2))).mergeSort
            (fun a b => decide (b.1 ≤ a.1))).map Prod.fst with
        | nil => exact absurd (List.map_eq_nil_iff.mp hl) hsne
        | cons a r => exact ⟨a, r, rfl⟩
      rw [hcons] at hpw ⊢
      refine ⟨a, rfl, List.mem_cons_self a rest, ?_⟩
      intro v hv
      rcases List.mem_cons.mp hv with h1 | h2
      · exact le_of_eq h1
      · exact (List.pairwise_cons.mp hpw).1 v h2

/-- C10 witness: the sortedness conclusion at the concrete input
`sa = [1, 3, 2]`, `counts = [1, 0, 5]`. -/
theorem rpplot_prepare_spec_w :
    ([1, 3, 2] : List ℚ).length = ([1, 0, 5] : List ℚ).length ∧
      (rpplot_prepare [1, 3, 2] [1, 0, 5]).sa.Pairwise (fun a b => b ≤ a) :=
  ⟨rfl, (rpplot_prepare_spec [1, 3, 2] [1, 0, 5] rfl).2.1⟩

end Rfcnt
